import Mathlib

/-!
# Scripted: key-binding diff, key-binding installation, local-storage eviction and
template proposals

A shallow embedding of three modules of the Scripted editor client:

* `scripts/scripted/keybindings/keybinder.js`: `jsonDiff`, `toJSON`, `getKeyBindings`,
  `getUnboundActionNames`, `installOn`, `persistKeyBindings`;
* `scripts/scripted/utils/storage.js`: `thresholds`, `safeStore`, `unsafeStore`,
  `purgeByTimestamp`;
* `scripts/scripted/editor/templateContentAssist.js`: `extractPositions`,
  `computeProposals`.

Modelling conventions.

* A JavaScript object used as a map is an association list in insertion order; a
  property read returns the first entry of that name. Where the code reads such an
  object by name without an own-property test (`boundNamesMap[name]`), the read also
  finds the properties inherited from `Object.prototype` (`objectPrototypeNames`).
  Elsewhere, property names that shadow members of `Object.prototype` or of the
  `Storage` interface are outside the model.
* JavaScript strings are Lean strings; lengths and indices count characters, which
  agrees with JavaScript for strings of the Basic Multilingual Plane.
* Numbers are mathematical integers; `parseInt` is exact (timestamps are far below
  the range where floating point rounds) and `NaN` is `none`.
* A thrown exception is a `Completion.throw`; `try`/`catch` is a `match` on the
  completion of the protected block.
* Calls to the logger and to the console do not touch the state and are left out.
* A promise is represented by the state in which it settles; the functions imported
  from modules outside these three files (`keybinding2keystroke`,
  `keystroke2keybinding`, `OS.name`) are parameters.
-/

/-! ## Definitions: `keybinder.js` -/

namespace Keybinder

/-- A configuration document: a JavaScript object used as a flat map from property
name to a string or `null` (`none`). Entries are kept in insertion order. -/
abbrev Doc := List (String × Option String)

/-- Property read `o[p]`: `none` when `o` has no own property `p` (JavaScript
`undefined`), `some v` for the stored value, where `v = none` is `null`. -/
def getProp : Doc → String → Option (Option String)
  | [], _ => none
  | (k, v) :: rest, p => if k = p then some v else getProp rest p

/-- Own-property test `o.hasOwnProperty(p)`. -/
def hasOwnProperty (o : Doc) (p : String) : Bool := (getProp o p).isSome

/-- Property write `o[p] = v`: replaces the value in place when `p` is already an own
property, otherwise appends the property. -/
def setProp : Doc → String → Option String → Doc
  | [], p, v => [(p, v)]
  | (k, w) :: rest, p, v => if k = p then (k, v) :: rest else (k, w) :: setProp rest p v

/-- Property removal `delete o[p]`. -/
def deleteProp : Doc → String → Doc
  | [], _ => []
  | (k, w) :: rest, p => if k = p then deleteProp rest p else (k, w) :: deleteProp rest p

/-- The local helper `eachProp(o, f)` of `jsonDiff`: for every enumerated property `p`
of `o` that is an own property, call `f(p, o[p])`. The callback updates the `result`
object of the enclosing function, which is threaded explicitly. -/
def eachProp (o : Doc) (f : String → Option String → Doc → Doc) (acc : Doc) : Doc :=
  (o.map Prod.fst).foldl
    (fun r p => match getProp o p with
      | some v => f p v r
      | none => r) acc

/-- The function `jsonDiff(base, target)` of `keybinder.js`. -/
def jsonDiff (base target : Doc) : Doc :=
  let result : Doc := []
  let result := eachProp base (fun p bv result =>
    match getProp target p with
    | some tv => if bv ≠ tv then setProp result p tv else result
    | none => setProp result p none) result
  eachProp target (fun p tv result =>
    if hasOwnProperty base p then result else setProp result p tv) result

/-- Patch application as the specification words it (testable property 2): for each
entry `k -> v` of the patch, set `base[k] = v` when `v` is not `null` and delete
`base[k]` when `v` is `null`. The source has no such function; this definition
follows the specification text so that the round-trip law can be stated. -/
def applyPatch (patch base : Doc) : Doc :=
  eachProp patch (fun k v doc =>
    match v with
    | some s => setProp doc k (some s)
    | none => deleteProp doc k) base

/-- One element of the text view's `_keyBindings` array: a key binding object and the
name of the action bound to it (`none` when the `name` is `null` or missing). -/
structure KeyBindingEntry (KB : Type) where
  keyBinding : KB
  name : Option String

/-- What this module reads from an editor: `editor.getTextView()._keyBindings` and
`editor.getTextView().getActions(true)`. -/
structure Editor (KB : Type) where
  keyBindings : List (KeyBindingEntry KB)
  actions : List String

/-- The function `toJSON(kbs)`; `fromKeyBinding` is `keybinding2keystroke`, imported
from the `keystroke` module. An empty `name` is falsy. -/
def toJSON {KB : Type} (fromKeyBinding : KB → String) (kbs : List (KeyBindingEntry KB)) :
    Doc :=
  kbs.foldl (fun json keyBinding =>
    match keyBinding.name with
    | some name =>
      if name ≠ "" then setProp json (fromKeyBinding keyBinding.keyBinding) (some name)
      else json
    | none => json) []

/-- The function `getKeyBindings(editor)`. -/
def getKeyBindings {KB : Type} (fromKeyBinding : KB → String) (editor : Editor KB) : Doc :=
  toJSON fromKeyBinding editor.keyBindings

/-- The function `getActionNames(editor)`. -/
def getActionNames {KB : Type} (editor : Editor KB) : List String := editor.actions

/-- The own properties of the object `boundNamesMap` after the loop of
`getUnboundActionNames`: the names that the loop sets to `true`. -/
def boundNamesMap (kbs : Doc) : List String :=
  (kbs.map Prod.fst).foldl (fun map k =>
    match getProp kbs k with
    | some (some boundName) =>
      if boundName ≠ "" then (if boundName ∈ map then map else map ++ [boundName])
      else map
    | _ => map) []

/-- The property names that a plain object `{}` inherits from `Object.prototype`: those
of ECMAScript 5 and the `__proto__` family that browsers add. Each of them reads as a
function or an object, hence truthy. -/
def objectPrototypeNames : List String :=
  ["constructor", "toString", "toLocaleString", "valueOf", "hasOwnProperty",
    "isPrototypeOf", "propertyIsEnumerable", "__proto__", "__defineGetter__",
    "__defineSetter__", "__lookupGetter__", "__lookupSetter__"]

/-- The truthiness of the read `boundNamesMap[name]` on a plain object whose own
properties, all `true`, are `own`: the read finds an own property, or else a property
inherited from `Object.prototype`. -/
def readsTruthy (own : List String) (name : String) : Bool :=
  decide (name ∈ own) || decide (name ∈ objectPrototypeNames)

/-- The function `getUnboundActionNames(editor)`; the filter keeps `name` when
`!boundNamesMap[name]`. -/
def getUnboundActionNames {KB : Type} (fromKeyBinding : KB → String) (editor : Editor KB) :
    List String :=
  let kbs := getKeyBindings fromKeyBinding editor
  (getActionNames editor).filter (fun name => !(readsTruthy (boundNamesMap kbs) name))

/-- The module variable `defaults`; `none` is `null`. -/
structure Defaults where
  keybindings : Option Doc
  unboundNames : Option (List String)
deriving DecidableEq

/-- The initial value of `defaults`. -/
def defaults : Defaults := { keybindings := none, unboundNames := none }

/-- A settled promise: fulfilled with a value, or rejected with a reason. -/
inductive Settled (α : Type) where
  | fulfilled (value : α)
  | rejected (reason : String)
deriving DecidableEq

/-- The method `promise.then(onFulfilled, onRejected)` of the promise library
(Promises/A, as implemented by `when.js`, with which this code base builds its
promises), for a promise that settles: the matching handler runs, and the promise that
`then` returns is fulfilled with the value the handler returns, also when the handler
that ran is `onRejected`. A handler yields its effects `E` and its return value. -/
def promiseThen {α β E : Type} (p : Settled α) (onFulfilled : α → E × β)
    (onRejected : String → E × β) : E × Settled β :=
  match p with
  | Settled.fulfilled value => ((onFulfilled value).1, Settled.fulfilled (onFulfilled value).2)
  | Settled.rejected reason => ((onRejected reason).1, Settled.fulfilled (onRejected reason).2)

/-- One call `tv.setKeyBinding(keyBinding, actionName, keepUnusedActions)` on an
editor's text view. -/
structure SetKeyBinding (KB : Type) where
  keyBinding : KB
  actionName : Option String
  keepUnusedActions : Bool
deriving DecidableEq

/-- The function `setEditorKeyBinding(editor, keySpec, actionName)`: the call it makes
on the text view of `editor`; `toKeyBinding` is `keystroke2keybinding`. -/
def setEditorKeyBinding {KB : Type} (toKeyBinding : String → KB) (keySpec : String)
    (actionName : Option String) : SetKeyBinding KB :=
  { keyBinding := toKeyBinding keySpec, actionName := actionName, keepUnusedActions := true }

/-- The name `keyBindingConfigName`; `osName` is `OS.name`. -/
def keyBindingConfigName (osName : String) : String := "keymap-" ++ osName

/-- What a call of `installOn` does. -/
structure Installed (KB : Type) where
  defaults : Defaults
  calls : List (SetKeyBinding KB)
  result : Settled Unit

/-- The function `installOn(editor)`: `defaults` is the module variable before the
call and `fetched` the settled outcome of `getScriptedRcFile(keyBindingConfigName)`.
The outcome holds the module variable after the call, the `setKeyBinding` calls made
on the editor's text view, and the settled state of the promise returned. -/
def installOn {KB : Type} (fromKeyBinding : KB → String) (toKeyBinding : String → KB)
    (fetched : Settled Doc) (editor : Editor KB) (defaults : Defaults) : Installed KB :=
  let defaults : Defaults :=
    if defaults.keybindings.isNone then
      { keybindings := some (getKeyBindings fromKeyBinding editor),
        unboundNames := some (getUnboundActionNames fromKeyBinding editor) }
    else defaults
  let settled := promiseThen fetched
    (fun conf =>
      ((conf.map Prod.fst).foldl (fun calls k =>
        match getProp conf k with
        | some v => calls ++ [setEditorKeyBinding toKeyBinding k v]
        | none => calls) [], ()))
    (fun _ => ([], ()))
  { defaults := defaults, calls := settled.1, result := settled.2 }

/-- A request `putScriptedRcFile(name, document)` to the remote configuration
service. -/
structure PutRequest where
  name : String
  document : Doc
deriving DecidableEq

/-- The call `jsonDiff(base, target)` with a `base` that may be `null`: the first loop
then has nothing to enumerate and `base.hasOwnProperty(p)` in the second throws a
`TypeError` as soon as `target` has a property. -/
def jsonDiffNullable (base : Option Doc) (target : Doc) : Except String Doc :=
  match base with
  | some b => Except.ok (jsonDiff b target)
  | none => if target.isEmpty then Except.ok [] else Except.error "TypeError"

/-- The function `persistKeyBindings()`: the request it passes to `putScriptedRcFile`;
`windowEditor` is `window.editor`. -/
def persistKeyBindings {KB : Type} (osName : String) (fromKeyBinding : KB → String)
    (defaults : Defaults) (windowEditor : Editor KB) : Except String PutRequest :=
  let defaultKeybindings := defaults.keybindings
  let currentKeybindings := getKeyBindings fromKeyBinding windowEditor
  match jsonDiffNullable defaultKeybindings currentKeybindings with
  | Except.ok diff => Except.ok { name := keyBindingConfigName osName, document := diff }
  | Except.error e => Except.error e

/-- The remote configuration store: the document held under each name. -/
abbrev Remote := String → Option Doc

/-- Modelled from the spec: the effect of `putScriptedRcFile(name, document)` (the
function lives in `servlets/config-client`, which is not among the source files) on
the remote store, `store(name, document)`: the document becomes the content held
under `name`, a full replace and not a merge. -/
def putScriptedRcFile (remote : Remote) (request : PutRequest) : Remote :=
  fun name => if name = request.name then some request.document else remote name

end Keybinder

/-! ## Definitions: `storage.js` -/

namespace Storage

/-- The contents of `localStorage`: key/value pairs of strings, in the order in which
`localStorage.key(i)` enumerates them. -/
abbrev LocalStorage := List (String × String)

/-- Read `localStorage[key]` / `localStorage.getItem(key)`; `none` when the key is
not stored. -/
def getItem : LocalStorage → String → Option String
  | [], _ => none
  | (k, v) :: rest, key => if k = key then some v else getItem rest key

/-- The effect of a successful `localStorage.setItem(key, value)`. -/
def putItem : LocalStorage → String → String → LocalStorage
  | [], key, value => [(key, value)]
  | (k, v) :: rest, key, value =>
    if k = key then (k, value) :: rest else (k, v) :: putItem rest key value

/-- The call `localStorage.removeItem(key)`. -/
def removeItem : LocalStorage → String → LocalStorage
  | [], _ => []
  | (k, v) :: rest, key =>
    if k = key then removeItem rest key else (k, v) :: removeItem rest key

/-- The keys `localStorage.key(0)`, ..., `localStorage.key(length - 1)`. -/
def keys (ls : LocalStorage) : List String := ls.map Prod.fst

/-- One entry of the `thresholds` table. -/
structure Threshold where
  text : String
  time : Int
deriving DecidableEq

/-- The table `thresholds` of `storage.js`. -/
def thresholds : List Threshold :=
  [ { text := "two days", time := 1000 * 60 * 60 * 24 * 2 },
    { text := "one day", time := 1000 * 60 * 60 * 24 },
    { text := "six hours", time := 1000 * 60 * 60 * 6 },
    { text := "one hour", time := 1000 * 60 * 60 },
    { text := "two minutes", time := 1000 * 60 * 2 } ]

/-- JavaScript `String.prototype.indexOf`: the index of the first occurrence of `pat`,
or `-1` when there is none. -/
def indexOf (pat : List Char) : List Char → Int
  | [] => if pat.isEmpty then 0 else -1
  | c :: cs =>
    if pat.isPrefixOf (c :: cs) then 0
    else
      let r := indexOf pat cs
      if r < 0 then -1 else r + 1

/-- JavaScript `s.substring(0, stop)`: a negative `stop` counts as `0`, one beyond the
length as the length. -/
def substring0 (s : String) (stop : Int) : String :=
  String.mk (s.toList.take stop.toNat)

/-- The characters that `parseInt` skips at the start of its argument (ECMAScript
`StrWhiteSpaceChar`). -/
def isStrWhiteSpaceChar (c : Char) : Bool :=
  c.toNat ∈ [0x09, 0x0A, 0x0B, 0x0C, 0x0D, 0x20, 0xA0, 0x1680, 0x2000, 0x2001, 0x2002,
    0x2003, 0x2004, 0x2005, 0x2006, 0x2007, 0x2008, 0x2009, 0x200A, 0x2028, 0x2029,
    0x202F, 0x205F, 0x3000, 0xFEFF]

/-- Decimal digits `0` to `9`. -/
def isDecimalDigit (c : Char) : Bool := 48 ≤ c.toNat && c.toNat ≤ 57

/-- JavaScript `parseInt(val, 10)`: skip leading white space, read an optional sign and
the longest run of decimal digits; `none` is `NaN` (no digit read, or `val` is
`undefined`). -/
def parseInt (val : Option String) : Option Int :=
  match val with
  | none => none
  | some s =>
    let cs := s.toList.dropWhile isStrWhiteSpaceChar
    let signed : Bool × List Char :=
      match cs with
      | '-' :: r => (true, r)
      | '+' :: r => (false, r)
      | _ => (false, cs)
    let digits := signed.2.takeWhile isDecimalDigit
    if digits.isEmpty then none
    else
      let n : Nat := digits.foldl (fun a c => 10 * a + (c.toNat - 48)) 0
      some (if signed.1 then - (n : Int) else (n : Int))

/-- The local function `isStale(val, currentTime)` of `purgeByTimestamp`; the test
`if (ts)` fails for `NaN` and for `0`. -/
def isStale (threshold : Int) (val : Option String) (currentTime : Int) : Bool :=
  match parseInt val with
  | some ts => if ts ≠ 0 then decide (currentTime - ts > threshold) else true
  | none => true

/-- JavaScript truthiness of `localStorage[key]`: `undefined` and the empty string are
falsy. -/
def truthy (val : Option String) : Bool :=
  match val with
  | some s => s ≠ ""
  | none => false

/-- The first loop of `purgeByTimestamp`: the array `keysToPurge`. -/
def keysToPurge (currentTime threshold : Int) (ls : LocalStorage) : List String :=
  (keys ls).foldl (fun acc key =>
    if indexOf "-ts".toList key.toList = (key.length : Int) - ("-ts".length : Int)
        && isStale threshold (getItem ls key) currentTime then
      let acc := acc ++ [key]
      let otherKey := substring0 key ((key.length : Int) - ("-ts".length : Int))
      if truthy (getItem ls otherKey) then acc ++ [otherKey] else acc
    else acc) []

/-- The method `purgeByTimestamp(threshold)`, with the value returned by
`generateTimeStamp()` as the parameter `currentTime`. -/
def purgeByTimestamp (currentTime threshold : Int) (ls : LocalStorage) : LocalStorage :=
  (keysToPurge currentTime threshold ls).foldl removeItem ls

/-- The test under which the first loop of `purgeByTimestamp` pushes `key` (the
condition of its `if`), named for the lemmas about the loop. -/
def purgeTest (currentTime threshold : Int) (ls : LocalStorage) (key : String) : Bool :=
  indexOf "-ts".toList key.toList = (key.length : Int) - ("-ts".length : Int)
    && isStale threshold (getItem ls key) currentTime

/-- A JavaScript exception, identified by its `name`. -/
structure JsError where
  name : String
deriving DecidableEq

/-- The storage medium's admission policy: for the current contents and a write, the
exception that `setItem` throws, or `none` when the write is accepted. -/
abbrev Medium := LocalStorage → String → String → Option JsError

/-- Observable steps of the store: attempted writes and purge sweeps. -/
inductive Event where
  | setItem (key value : String)
  | purge (threshold : Int)
deriving DecidableEq

/-- The state that the storage methods act on: the stored entries and the steps
taken so far, oldest first. -/
structure World where
  storage : LocalStorage
  trace : List Event
deriving DecidableEq

/-- How a call ends: it returns, or it throws `e`; either way in state `w`. -/
inductive Completion where
  | normal (w : World)
  | throw (e : JsError) (w : World)
deriving DecidableEq

/-- The call `localStorage.setItem(key, value)`: a rejected write throws and leaves
the entries as they were. -/
def setItem (m : Medium) (key value : String) (w : World) : Completion :=
  let w1 : World := { w with trace := w.trace ++ [Event.setItem key value] }
  match m w.storage key value with
  | some e => Completion.throw e w1
  | none => Completion.normal { w1 with storage := putItem w.storage key value }

/-- The call `this.purgeByTimestamp(threshold)` on the state, recorded in the trace. -/
def purgeSweep (currentTime threshold : Int) (w : World) : World :=
  { storage := purgeByTimestamp currentTime threshold w.storage,
    trace := w.trace ++ [Event.purge threshold] }

/-- The method `unsafeStore(key, value)`. The `catch` clause only logs, and only for
`QUOTA_EXCEEDED_ERR`; it does not throw again. -/
def unsafeStore (m : Medium) (key value : String) (w : World) : Completion :=
  match setItem m key value w with
  | Completion.normal w1 => Completion.normal w1
  | Completion.throw e w1 =>
    if e.name = "QUOTA_EXCEEDED_ERR" then Completion.normal w1
    else Completion.normal w1

/-- The method `safeStore(key, value, includeTimestamp, depth)`. The parameter
`includeTimestamp` is only passed along and is left out; `depth` absent is `0`;
`clock d` is the value of `generateTimeStamp()` read by the sweep at depth `d`. -/
def safeStore (m : Medium) (clock : Nat → Int) (key value : String) (depth : Nat)
    (w : World) : Completion :=
  let attempt : Completion :=
    if depth < 5 then setItem m key value w
    else Completion.normal w
  match attempt with
  | Completion.normal w1 => Completion.normal w1
  | Completion.throw e w1 =>
    if e.name = "QUOTA_EXCEEDED_ERR" then
      match h : thresholds[depth]? with
      | some threshold =>
        safeStore m clock key value (depth + 1) (purgeSweep (clock depth) threshold.time w1)
      | none => unsafeStore m key value w1
    else Completion.normal w1
termination_by 5 - depth
decreasing_by
  have hlt := (List.getElem?_eq_some_iff.mp h).1
  simp only [thresholds, List.length_cons, List.length_nil] at hlt
  omega

/-- A medium that rejects every write with `QUOTA_EXCEEDED_ERR`. -/
def alwaysFull : Medium := fun _ _ _ => some { name := "QUOTA_EXCEEDED_ERR" }

/-- A medium with room for two entries. -/
def capacityTwo : Medium := fun ls key value =>
  if (putItem ls key value).length > 2 then some { name := "QUOTA_EXCEEDED_ERR" } else none

/-- A medium that rejects every write with an exception named `SECURITY_ERR`. -/
def securityDenied : Medium := fun _ _ _ => some { name := "SECURITY_ERR" }

end Storage

/-! ## Definitions: `templateContentAssist.js` -/

namespace TemplateContentAssist

/-- A `positions` value of a template: `null` (or missing), one position object
`{offset, length}`, or an array of such values. -/
inductive Positions where
  | null
  | position (offset length : Int)
  | array (items : List Positions)

mutual
/-- The function `extractPositions(origPositions, offset)`. -/
def extractPositions : Positions → Int → Positions
  | Positions.null, _ => Positions.null
  | Positions.position o l, offset => Positions.position (o + offset) l
  | Positions.array items, offset => Positions.array (extractPositionsEach items offset)
/-- The `forEach` loop of `extractPositions` over the elements of an array. -/
def extractPositionsEach : List Positions → Int → List Positions
  | [], _ => []
  | position :: rest, offset =>
    extractPositions position offset :: extractPositionsEach rest offset
end

mutual
/-- The position objects of a `positions` value as pairs (offset, length), in reading
order. -/
def Positions.leaves : Positions → List (Int × Int)
  | Positions.null => []
  | Positions.position o l => [(o, l)]
  | Positions.array items => Positions.leavesEach items
/-- The position objects of the elements of an array, in reading order. -/
def Positions.leavesEach : List Positions → List (Int × Int)
  | [] => []
  | item :: rest => Positions.leaves item ++ Positions.leavesEach rest
end

mutual
/-- The nesting structure of a `positions` value: the value with the fields of every
position object set to zero. -/
def Positions.shape : Positions → Positions
  | Positions.null => Positions.null
  | Positions.position _ _ => Positions.position 0 0
  | Positions.array items => Positions.array (Positions.shapeEach items)
/-- The nesting structures of the elements of an array. -/
def Positions.shapeEach : List Positions → List Positions
  | [] => []
  | item :: rest => Positions.shape item :: Positions.shapeEach rest
end

/-- A template as loaded from the server. A missing or `null` `escapePosition` is
`none`. -/
structure Template where
  trigger : String
  proposal : String
  description : String
  escapePosition : Option Int
  positions : Positions

/-- A content-assist proposal as built by `computeProposals`. -/
structure Proposal where
  proposal : String
  description : String
  escapePosition : Option Int
  positions : Positions
  relevance : Int
  replace : Bool

/-- JavaScript `s.substr(0, n)` for `n ≥ 0`: the first `n` characters, or all of `s`
when it is shorter. -/
def substr0 (s : String) (n : Nat) : String := String.mk (s.toList.take n)

/-- Read `allTemplates[scope]`: `none` when the object has no such property. -/
def templatesOf : List (String × List Template) → String → Option (List Template)
  | [], _ => none
  | (k, v) :: rest, scope => if k = scope then some v else templatesOf rest scope

/-- The proposal that `computeProposals` pushes for a template; `offset` is
`invocationOffset - prefix.length`. The test on `escapePosition` fails for `null` and
for `0`. -/
def newTemplate (offset : Int) (template : Template) : Proposal :=
  { proposal := template.proposal,
    description := template.description,
    escapePosition :=
      match template.escapePosition with
      | some e => if e ≠ 0 then some (offset + e) else none
      | none => none,
    positions := extractPositions template.positions offset,
    relevance := 2000,
    replace := true }

/-- The method `computeProposals(buffer, invocationOffset, context)`: `allTemplates` is
the module variable (`none` until the templates are loaded), `scope` is `this.scope`
and `contextPrefix` is `context.prefix`. The parameter `buffer` is not used. -/
def computeProposals (allTemplates : Option (List (String × List Template)))
    (scope : String) (invocationOffset : Int) (contextPrefix : String) : List Proposal :=
  match allTemplates with
  | none => []
  | some all =>
    match templatesOf all scope with
    | none => []
    | some myTemplates =>
      let offset := invocationOffset - (contextPrefix.length : Int)
      myTemplates.foldl (fun newTemplates template =>
        if substr0 template.trigger contextPrefix.length = contextPrefix then
          newTemplates ++ [newTemplate offset template]
        else newTemplates) []

end TemplateContentAssist

/-! ## Theorems: `jsonDiff` -/

namespace Keybinder

theorem getProp_setProp (o : Doc) (p : String) (v : Option String) (q : String) :
    getProp (setProp o p v) q = if p = q then some v else getProp o q := by
  induction o with
  | nil => simp [setProp, getProp]
  | cons e rest ih =>
    obtain ⟨k, w⟩ := e
    by_cases hk : k = p
    · subst hk
      by_cases hq : k = q <;> simp [setProp, getProp, hq]
    · by_cases hq : k = q
      · subst hq
        simp [setProp, getProp, hk, Ne.symm hk]
      · simp [setProp, getProp, hk, hq, ih]

theorem getProp_deleteProp (o : Doc) (p q : String) :
    getProp (deleteProp o p) q = if p = q then none else getProp o q := by
  induction o with
  | nil => simp [deleteProp, getProp]
  | cons e rest ih =>
    obtain ⟨k, w⟩ := e
    by_cases hk : k = p
    · subst hk
      by_cases hq : k = q
      · subst hq
        simp [deleteProp, ih]
      · simp [deleteProp, getProp, hq, ih]
    · by_cases hq : k = q
      · subst hq
        simp [deleteProp, getProp, hk, Ne.symm hk]
      · simp [deleteProp, getProp, hk, hq, ih]

theorem mem_keys_iff (o : Doc) (q : String) :
    q ∈ o.map Prod.fst ↔ getProp o q ≠ none := by
  induction o with
  | nil => simp [getProp]
  | cons e rest ih =>
    obtain ⟨k, w⟩ := e
    by_cases hq : k = q
    · simp [getProp, hq]
    · simp only [List.map_cons, List.mem_cons, getProp, hq, if_false]
      rw [← ih]
      constructor
      · rintro (h | h)
        · exact absurd h.symm hq
        · exact h
      · exact Or.inr

/-- Lookup after a loop over `keys` whose step at key `p` changes only property `p`:
`eff p` is `none` when the step leaves `p` alone and `some x` when it makes the
lookup of `p` equal to `x`. -/
theorem getProp_foldl (g : Doc → String → Doc) (eff : String → Option (Option (Option String)))
    (hg : ∀ r p q, getProp (g r p) q =
      if p = q then (match eff p with | some x => x | none => getProp r q) else getProp r q)
    (keys : List String) (r : Doc) (q : String) :
    getProp (keys.foldl g r) q =
      if q ∈ keys then (match eff q with | some x => x | none => getProp r q)
      else getProp r q := by
  induction keys generalizing r with
  | nil => simp
  | cons p rest ih =>
    rw [List.foldl_cons, ih (g r p), hg]
    by_cases hpq : p = q
    · subst hpq
      by_cases hm : p ∈ rest
      · simp only [hm, List.mem_cons, true_or, if_true]
        cases eff p <;> simp
      · simp [hm]
    · have hqp : ¬ q = p := fun h => hpq h.symm
      simp [hpq, hqp]

/-- A loop whose every step returns its accumulator returns the initial one. -/
theorem foldl_fixed (g : Doc → String → Doc) (keys : List String)
    (h : ∀ p ∈ keys, ∀ r, g r p = r) (r : Doc) : keys.foldl g r = r := by
  induction keys generalizing r with
  | nil => rfl
  | cons p rest ih =>
    rw [List.foldl_cons, h p (List.mem_cons_self _ _) r]
    exact ih (fun p' hp' => h p' (List.mem_cons_of_mem _ hp')) r

/-- The entry of `jsonDiff base target` at each key, by cases on the two documents. -/
theorem getProp_jsonDiff (base target : Doc) (k : String) :
    getProp (jsonDiff base target) k =
      match getProp base k, getProp target k with
      | some bv, some tv => if bv = tv then none else some tv
      | none, some tv => some tv
      | some _, none => some none
      | none, none => none := by
  unfold jsonDiff eachProp
  simp only []
  rw [getProp_foldl _ (fun p => match getProp target p with
        | some tv => if hasOwnProperty base p then none else some (some tv)
        | none => none)]
  · rw [getProp_foldl _ (fun p => match getProp base p with
        | some bv => (match getProp target p with
            | some tv => if bv ≠ tv then some (some tv) else none
            | none => some (some none))
        | none => none)]
    · have hb := mem_keys_iff base k
      have ht := mem_keys_iff target k
      cases hbk : getProp base k <;> cases htk : getProp target k <;>
        simp [hbk, htk, hasOwnProperty, getProp] at hb ht ⊢ <;> simp [hb, ht]
      split_ifs <;> simp
    · intro r p q
      cases hbp : getProp base p <;> cases htp : getProp target p <;> simp [getProp_setProp]
      split_ifs <;> simp [getProp_setProp, *]
  · intro r p q
    cases htp : getProp target p <;> simp
    split_ifs <;> simp [getProp_setProp, *]

/-- The entry of `applyPatch patch base` at each key. -/
theorem getProp_applyPatch (patch base : Doc) (q : String) :
    getProp (applyPatch patch base) q =
      match getProp patch q with
      | some (some s) => some (some s)
      | some none => none
      | none => getProp base q := by
  unfold applyPatch eachProp
  rw [getProp_foldl _ (fun p => match getProp patch p with
        | some (some s) => some (some (some s))
        | some none => some none
        | none => none)]
  · have hm := mem_keys_iff patch q
    cases hp : getProp patch q with
    | none => simp [hp] at hm; simp [hm]
    | some v => cases v <;> simp [hp] at hm ⊢ <;> simp [hm]
  · intro r p q
    cases hp : getProp patch p with
    | none => simp
    | some v => cases v <;> simp [getProp_setProp, getProp_deleteProp]

/-- Claim C1. For all documents `base` and `target`, `jsonDiff base target` has a key
`k` exactly when `k` is in `base` or `target` and not in both with equal values; for
each such `k` the patch value is `target[k]` when `target` has `k` and `null` when only
`base` has it; a key absent from both never appears; and for base `{a:x, b:y}` and
target `{a:x, c:z}` the result is `{b:null, c:z}`. -/
theorem jsonDiff_keys_and_values (base target : Doc) :
    (∀ k, hasOwnProperty (jsonDiff base target) k = true ↔
      ((hasOwnProperty base k = true ∨ hasOwnProperty target k = true) ∧
        ¬ (hasOwnProperty base k = true ∧ hasOwnProperty target k = true ∧
            getProp base k = getProp target k))) ∧
    (∀ k, hasOwnProperty (jsonDiff base target) k = true →
      (hasOwnProperty target k = true →
        getProp (jsonDiff base target) k = getProp target k) ∧
      (hasOwnProperty target k = false →
        getProp (jsonDiff base target) k = some none)) ∧
    (∀ k, hasOwnProperty base k = false → hasOwnProperty target k = false →
      hasOwnProperty (jsonDiff base target) k = false) ∧
    jsonDiff [("a", some "x"), ("b", some "y")] [("a", some "x"), ("c", some "z")]
      = [("b", none), ("c", some "z")] := by
  refine ⟨fun k => ?_, fun k => ?_, fun k => ?_, by decide⟩
  all_goals
    simp only [hasOwnProperty, getProp_jsonDiff]
    rcases hb : getProp base k with _ | bv <;> rcases ht : getProp target k with _ | tv
    · simp
    · simp
    · simp
    · by_cases h : bv = tv <;> simp [h]

/-- Claim C2, as stated, fails when the target holds a `null` value: for the empty
base and target `{a: null}` the patch is `{a: null}`, applying it deletes `a`, and the
outcome has no key `a` while the target has one. -/
theorem applyPatch_jsonDiff_null_target :
    getProp (applyPatch (jsonDiff [] [("a", none)]) []) "a" ≠ getProp [("a", none)] "a" := by
  decide

/-- Claim C2, amended. For all documents `base` and `target` such that `target` holds no
`null` value, applying `jsonDiff base target` to `base` yields a document equal to
`target`: the same keys with the same values. -/
theorem applyPatch_jsonDiff (base target : Doc)
    (hnull : ∀ k, getProp target k ≠ some none) :
    ∀ k, getProp (applyPatch (jsonDiff base target) base) k = getProp target k := by
  intro k
  rw [getProp_applyPatch, getProp_jsonDiff]
  have hk := hnull k
  rcases hb : getProp base k with _ | bv <;> rcases ht : getProp target k with _ | tv
  · simp
  · rw [ht] at hk
    cases tv with
    | none => exact absurd rfl hk
    | some s => simp
  · simp
  · rw [ht] at hk
    by_cases h : bv = tv
    · simp [h]
    · cases tv with
      | none => exact absurd rfl hk
      | some s => simp [h]

/-- The amended round-trip law at base `{a:x, b:y}` and target `{a:x, c:z}`. -/
theorem applyPatch_jsonDiff_witness :
    (∀ k, getProp [("a", some "x"), ("c", some "z")] k ≠ some none) ∧
    (∀ k, getProp (applyPatch
        (jsonDiff [("a", some "x"), ("b", some "y")] [("a", some "x"), ("c", some "z")])
        [("a", some "x"), ("b", some "y")]) k
      = getProp [("a", some "x"), ("c", some "z")] k) :=
  have h : ∀ k, getProp [("a", some "x"), ("c", some "z")] k ≠ some none := by
    intro k
    simp only [getProp]
    split_ifs <;> simp
  ⟨h, applyPatch_jsonDiff _ _ h⟩

/-- Claim C3. For every document `X`, `jsonDiff X X` is the empty document. -/
theorem jsonDiff_self (X : Doc) : jsonDiff X X = [] := by
  unfold jsonDiff eachProp
  simp only []
  have h1 : ∀ r : Doc, (X.map Prod.fst).foldl (fun r p =>
      match getProp X p with
      | some v =>
        (match getProp X p with
        | some tv => if v ≠ tv then setProp r p tv else r
        | none => setProp r p none)
      | none => r) r = r := by
    intro r
    apply foldl_fixed
    intro p _ r
    cases h : getProp X p <;> simp
  have h2 : ∀ r : Doc, (X.map Prod.fst).foldl (fun r p =>
      match getProp X p with
      | some v => if hasOwnProperty X p then r else setProp r p v
      | none => r) r = r := by
    intro r
    apply foldl_fixed
    intro p _ r
    cases h : getProp X p <;> simp [hasOwnProperty, h]
  rw [h1, h2]

/-! ## Theorems: `installOn`, `getUnboundActionNames`, `persistKeyBindings` -/

/-- The two loops of `jsonDiff` write nothing when both arguments are the same
document. -/
theorem jsonDiff_same_nil (X : Doc) : jsonDiff X X = [] := by
  have hfirst : eachProp X (fun p bv result =>
      match getProp X p with
      | some tv => if bv ≠ tv then setProp result p tv else result
      | none => setProp result p none) [] = [] := by
    unfold eachProp
    apply foldl_fixed
    intro p _ r
    cases h : getProp X p <;> simp [h]
  have hsecond : eachProp X (fun p tv result =>
      if hasOwnProperty X p then result else setProp result p tv) [] = [] := by
    unfold eachProp
    apply foldl_fixed
    intro p _ r
    cases h : getProp X p <;> simp [hasOwnProperty, h]
  show eachProp X _ (eachProp X _ []) = []
  rw [hfirst, hsecond]

/-- In a document with pairwise distinct keys every entry is the one a read finds. -/
theorem getProp_of_mem (o : Doc) (hnodup : (o.map Prod.fst).Nodup) (k : String)
    (v : Option String) (hmem : (k, v) ∈ o) : getProp o k = some v := by
  induction o with
  | nil => cases hmem
  | cons e rest ih =>
    obtain ⟨k1, v1⟩ := e
    rw [List.map_cons, List.nodup_cons] at hnodup
    rcases List.mem_cons.mp hmem with heq | hrest
    · cases heq
      simp [getProp]
    · have hne : k1 ≠ k := by
        rintro rfl
        exact hnodup.1 (List.mem_map.mpr ⟨(k1, v), hrest, rfl⟩)
      simp [getProp, hne, ih hnodup.2 hrest]

/-- The loop of the success handler of `installOn` over a stretch `l` of the entries of
`conf`. -/
theorem installOn_loop {KB : Type} (toKeyBinding : String → KB) (conf : Doc)
    (hnodup : (conf.map Prod.fst).Nodup) (l : Doc) (hl : ∀ e ∈ l, e ∈ conf)
    (calls : List (SetKeyBinding KB)) :
    (l.map Prod.fst).foldl (fun calls k =>
        match getProp conf k with
        | some v => calls ++ [setEditorKeyBinding toKeyBinding k v]
        | none => calls) calls
      = calls ++ l.map (fun e => setEditorKeyBinding toKeyBinding e.1 e.2) := by
  induction l generalizing calls with
  | nil => simp
  | cons e rest ih =>
    obtain ⟨k, v⟩ := e
    have hk : getProp conf k = some v :=
      getProp_of_mem conf hnodup k v (hl (k, v) (List.mem_cons_self _ _))
    rw [List.map_cons, List.foldl_cons]
    simp only [hk]
    rw [ih (fun e he => hl e (List.mem_cons_of_mem _ he))]
    simp

/-- Claim C12. From the initial `defaults`, the first `installOn` call, on editor
`e1`, stores the key bindings and the unbound action names read from `e1` (whatever
they are, the empty document included), and every later sequence of `installOn` calls,
on any editors and with any fetch outcomes, leaves the stored `defaults` unchanged. -/
theorem installOn_captures_once {KB : Type} (fromKeyBinding : KB → String)
    (toKeyBinding : String → KB) (e1 : Editor KB) (f1 : Settled Doc)
    (later : List (Editor KB × Settled Doc)) :
    (installOn fromKeyBinding toKeyBinding f1 e1 defaults).defaults =
        { keybindings := some (getKeyBindings fromKeyBinding e1),
          unboundNames := some (getUnboundActionNames fromKeyBinding e1) } ∧
    later.foldl (fun d call => (installOn fromKeyBinding toKeyBinding call.2 call.1 d).defaults)
        (installOn fromKeyBinding toKeyBinding f1 e1 defaults).defaults =
      (installOn fromKeyBinding toKeyBinding f1 e1 defaults).defaults := by
  have hfirst : (installOn fromKeyBinding toKeyBinding f1 e1 defaults).defaults =
      { keybindings := some (getKeyBindings fromKeyBinding e1),
        unboundNames := some (getUnboundActionNames fromKeyBinding e1) } := by
    simp [installOn, defaults]
  refine ⟨hfirst, ?_⟩
  rw [hfirst]
  induction later with
  | nil => rfl
  | cons call rest ih =>
    rw [List.foldl_cons]
    have hkeep : (installOn fromKeyBinding toKeyBinding call.2 call.1
        { keybindings := some (getKeyBindings fromKeyBinding e1),
          unboundNames := some (getUnboundActionNames fromKeyBinding e1) }).defaults =
        { keybindings := some (getKeyBindings fromKeyBinding e1),
          unboundNames := some (getUnboundActionNames fromKeyBinding e1) } := by
      simp [installOn]
    rw [hkeep]
    exact ih

/-- Claim C13, as stated, fails: with a fetch rejected for the reason `Not Found` the
promise that `installOn` returns is not rejected, for any reason. -/
theorem installOn_fetch_failure_not_rejected :
    ¬ ∃ reason, (installOn (fun s : String => s) (fun s : String => s)
        (Settled.rejected "Not Found") { keyBindings := [], actions := [] } defaults).result
      = Settled.rejected reason := by
  rintro ⟨reason, h⟩
  simp [installOn, promiseThen] at h

/-- Claim C13, amended. When the remote fetch of the key-binding document fails,
`installOn` handles the failure itself (it logs the error): the promise it returns is
fulfilled, with no value, and not rejected. -/
theorem installOn_fetch_failure_fulfilled {KB : Type} (fromKeyBinding : KB → String)
    (toKeyBinding : String → KB) (reason : String) (editor : Editor KB) (d : Defaults) :
    (installOn fromKeyBinding toKeyBinding (Settled.rejected reason) editor d).result
      = Settled.fulfilled () := by
  simp [installOn, promiseThen]

/-- Claim C14. On fetch success `installOn` makes on the editor's text view exactly
one `setKeyBinding` call per entry `(k, v)` of the remote document, in the order of the
document, for the key binding of keystroke `k` with action `v` (`null` unbinds) and
`keepUnusedActions` set, and no other call; on fetch failure it makes none. -/
theorem installOn_calls {KB : Type} (fromKeyBinding : KB → String)
    (toKeyBinding : String → KB) (editor : Editor KB) (d : Defaults) :
    (∀ conf : Doc, (conf.map Prod.fst).Nodup →
      (installOn fromKeyBinding toKeyBinding (Settled.fulfilled conf) editor d).calls =
        conf.map (fun e =>
          { keyBinding := toKeyBinding e.1, actionName := e.2, keepUnusedActions := true })) ∧
    (∀ reason : String,
      (installOn fromKeyBinding toKeyBinding (Settled.rejected reason) editor d).calls = []) := by
  constructor
  · intro conf hnodup
    have h := installOn_loop toKeyBinding conf hnodup conf (fun e he => he) []
    simp only [installOn, promiseThen, h, List.nil_append]
    rfl
  · intro reason
    simp [installOn, promiseThen]

/-- Claim C14 at the remote document `{Ctrl+S: save, Ctrl+Q: null}`. -/
theorem installOn_calls_witness :
    ([("Ctrl+S", some "save"), ("Ctrl+Q", none)].map Prod.fst).Nodup ∧
    (installOn (fun s : String => s) (fun s : String => s)
        (Settled.fulfilled [("Ctrl+S", some "save"), ("Ctrl+Q", none)])
        { keyBindings := [], actions := [] } defaults).calls =
      [("Ctrl+S", some "save"), ("Ctrl+Q", none)].map (fun e =>
        { keyBinding := e.1, actionName := e.2, keepUnusedActions := true }) :=
  ⟨by decide,
    (installOn_calls (fun s : String => s) (fun s : String => s)
      { keyBindings := [], actions := [] } defaults).1
      [("Ctrl+S", some "save"), ("Ctrl+Q", none)] (by decide)⟩

/-- Claim C15, evaluated at the editor with the one key binding `Ctrl+S -> save` and
the action names `constructor, save, toString, quit`: the action names `constructor`
and `toString` are listed by the editor and are the action of no entry of
`_keyBindings`, yet `getUnboundActionNames` returns only `quit`, because
`boundNamesMap[name]` finds the members that the plain object inherits from
`Object.prototype`. With the action names `lineUp, save, lineDown, quit` the same
editor gets `lineUp, lineDown, quit`, as the claim says. -/
theorem getUnboundActionNames_drops_inherited_names :
    getUnboundActionNames (fun s : String => s)
        { keyBindings := [{ keyBinding := "Ctrl+S", name := some "save" }],
          actions := ["constructor", "save", "toString", "quit"] }
      = ["quit"] ∧
    (∀ name ∈ ["constructor", "toString"],
      name ∈ getActionNames
          ({ keyBindings := [{ keyBinding := "Ctrl+S", name := some "save" }],
             actions := ["constructor", "save", "toString", "quit"] } : Editor String) ∧
      (∀ kb ∈ [({ keyBinding := "Ctrl+S", name := some "save" } : KeyBindingEntry String)],
        kb.name ≠ some name) ∧
      name ∉ getUnboundActionNames (fun s : String => s)
          { keyBindings := [{ keyBinding := "Ctrl+S", name := some "save" }],
            actions := ["constructor", "save", "toString", "quit"] }) ∧
    getUnboundActionNames (fun s : String => s)
        { keyBindings := [{ keyBinding := "Ctrl+S", name := some "save" }],
          actions := ["lineUp", "save", "lineDown", "quit"] }
      = ["lineUp", "lineDown", "quit"] := by
  decide

/-- Claim C18. With a captured baseline, `persistKeyBindings` passes to
`putScriptedRcFile` the name `keymap-` followed by the platform identifier and the
document `jsonDiff(baseline, current)`, where `current` is read from `window.editor`
at that moment; stored remotely, this document is the content under that name whatever
was there before, and no other name changes; when `current` equals the baseline the
document is empty. -/
theorem persistKeyBindings_spec {KB : Type} (osName : String) (fromKeyBinding : KB → String)
    (baseline : Doc) (unboundNames : Option (List String)) (windowEditor : Editor KB) :
    persistKeyBindings osName fromKeyBinding
        { keybindings := some baseline, unboundNames := unboundNames } windowEditor =
      Except.ok { name := "keymap-" ++ osName,
                  document := jsonDiff baseline (getKeyBindings fromKeyBinding windowEditor) } ∧
    (∀ remote : Remote,
      putScriptedRcFile remote
          { name := "keymap-" ++ osName,
            document := jsonDiff baseline (getKeyBindings fromKeyBinding windowEditor) }
          ("keymap-" ++ osName) =
        some (jsonDiff baseline (getKeyBindings fromKeyBinding windowEditor)) ∧
      ∀ other, other ≠ "keymap-" ++ osName →
        putScriptedRcFile remote
          { name := "keymap-" ++ osName,
            document := jsonDiff baseline (getKeyBindings fromKeyBinding windowEditor) }
          other = remote other) ∧
    (getKeyBindings fromKeyBinding windowEditor = baseline →
      jsonDiff baseline (getKeyBindings fromKeyBinding windowEditor) = []) := by
  refine ⟨rfl, fun remote => ⟨by simp [putScriptedRcFile], ?_⟩, ?_⟩
  · intro other hother
    simp [putScriptedRcFile, hother]
  · intro hsame
    rw [hsame]
    exact jsonDiff_same_nil baseline

/-- Claim C18 for an editor whose live bindings equal the baseline `{Ctrl+S: save}`. -/
theorem persistKeyBindings_spec_witness :
    getKeyBindings (fun s : String => s)
        { keyBindings := [{ keyBinding := "Ctrl+S", name := some "save" }], actions := [] }
      = [("Ctrl+S", some "save")] ∧
    jsonDiff [("Ctrl+S", some "save")]
        (getKeyBindings (fun s : String => s)
          { keyBindings := [{ keyBinding := "Ctrl+S", name := some "save" }], actions := [] })
      = [] :=
  ⟨by decide,
    (persistKeyBindings_spec "linux" (fun s : String => s) [("Ctrl+S", some "save")] none
      { keyBindings := [{ keyBinding := "Ctrl+S", name := some "save" }], actions := [] }).2.2
      (by decide)⟩

end Keybinder

/-! ## Theorems: `purgeByTimestamp` -/

namespace Storage

/-- Claim C4, evaluated at its own example with the clock at 400000000 ms: for the
entries `{k1:v1, k1-ts:now-3days, k2:v2, k2-ts:now-1hour}` and a threshold of one day
the purge leaves only `k2-ts`; the fresh primary key `k2` is removed, because the
suffix test `key.indexOf('-ts') === key.length - 3` reads `-1 === -1` on a key of two
characters. The same entries under keys of four characters purge as the claim says. -/
theorem purgeByTimestamp_example_loses_k2 :
    purgeByTimestamp 400000000 86400000
        [("k1", "v1"), ("k1-ts", "140800000"), ("k2", "v2"), ("k2-ts", "396400000")]
      = [("k2-ts", "396400000")] ∧
    purgeByTimestamp 400000000 86400000
        [("key1", "v1"), ("key1-ts", "140800000"), ("key2", "v2"), ("key2-ts", "396400000")]
      = [("key2", "v2"), ("key2-ts", "396400000")] := by
  decide

/-- Claim C5, evaluated at the store `{ab: v}`: the key `ab` does not end in `-ts` and
has no companion `ab-ts`, yet the purge removes it, at the most permissive threshold
too. -/
theorem purgeByTimestamp_removes_two_char_key :
    "-ts".toList.isSuffixOf "ab".toList = false ∧
    getItem [("ab", "v")] "ab-ts" = none ∧
    getItem [("ab", "v")] "ab" = some "v" ∧
    getItem (purgeByTimestamp 400000000 172800000 [("ab", "v")]) "ab" = none := by
  decide

/-- Claim C6, evaluated at the store `{a-ts.js-ts: 1}`: the key ends in `-ts` and its
timestamp is older than the threshold, yet the key is still stored after the purge,
because `indexOf` finds the earlier occurrence of `-ts`. -/
theorem purgeByTimestamp_keeps_stale_ts_key :
    "-ts".toList.isSuffixOf "a-ts.js-ts".toList = true ∧
    isStale 86400000 (some "1") 400000000 = true ∧
    getItem (purgeByTimestamp 400000000 86400000 [("a-ts.js-ts", "1")]) "a-ts.js-ts"
      = some "1" := by
  decide

/-- Claim C7, evaluated at the store `{abc: "", abc-ts: 1}`: the purge removes the
timestamp key `abc-ts` and leaves the primary key `abc`, whose value is the empty
string, in the store. -/
theorem purgeByTimestamp_keeps_empty_primary :
    getItem [("abc", ""), ("abc-ts", "1")] "abc-ts" = some "1" ∧
    getItem (purgeByTimestamp 400000000 86400000 [("abc", ""), ("abc-ts", "1")]) "abc-ts"
      = none ∧
    getItem (purgeByTimestamp 400000000 86400000 [("abc", ""), ("abc-ts", "1")]) "abc"
      = some "" := by
  decide

/-! ## Theorems: `safeStore` and `unsafeStore` -/

/-- One unfolding of `safeStore`. -/
theorem safeStore_unfold (m : Medium) (clock : Nat → Int) (key value : String) (depth : Nat)
    (w : World) :
    safeStore m clock key value depth w =
      match (if depth < 5 then setItem m key value w else Completion.normal w) with
      | Completion.normal w1 => Completion.normal w1
      | Completion.throw e w1 =>
        if e.name = "QUOTA_EXCEEDED_ERR" then
          match thresholds[depth]? with
          | some threshold =>
            safeStore m clock key value (depth + 1)
              (purgeSweep (clock depth) threshold.time w1)
          | none => unsafeStore m key value w1
        else Completion.normal w1 := by
  rw [safeStore]
  split
  · rfl
  · split
    · split <;> split <;> simp_all
    · rfl

/-- Claim C8. On a medium that rejects every write with `QUOTA_EXCEEDED_ERR`,
`safeStore(key, value)` started at depth 0 returns without throwing, after five
rejected writes each followed by one purge sweep, the sweeps using in this order the
thresholds 172800000, 86400000, 21600000, 3600000 and 120000 ms; nothing else
happens. -/
theorem safeStore_always_full (m : Medium)
    (hm : ∀ ls k v, ∃ e, m ls k v = some e ∧ e.name = "QUOTA_EXCEEDED_ERR")
    (clock : Nat → Int) (key value : String) (w : World) :
    ∃ w1, safeStore m clock key value 0 w = Completion.normal w1 ∧
      w1.trace = w.trace ++
        [Event.setItem key value, Event.purge 172800000,
         Event.setItem key value, Event.purge 86400000,
         Event.setItem key value, Event.purge 21600000,
         Event.setItem key value, Event.purge 3600000,
         Event.setItem key value, Event.purge 120000] := by
  have step : ∀ (d : Nat) (t : Threshold) (w : World), thresholds[d]? = some t →
      safeStore m clock key value d w =
        safeStore m clock key value (d + 1)
          (purgeSweep (clock d) t.time
            { w with trace := w.trace ++ [Event.setItem key value] }) := by
    intro d t w ht
    have hd : d < 5 := by
      have hlt := (List.getElem?_eq_some_iff.mp ht).1
      simpa [thresholds] using hlt
    obtain ⟨e, he, hq⟩ := hm w.storage key value
    rw [safeStore_unfold]
    simp only [hd, if_true, setItem, he, hq, ht]
  have last : ∀ w : World, safeStore m clock key value 5 w = Completion.normal w := by
    intro w
    rw [safeStore_unfold]
    simp
  rw [step 0 _ _ rfl, step 1 _ _ rfl, step 2 _ _ rfl, step 3 _ _ rfl, step 4 _ _ rfl, last]
  refine ⟨_, rfl, ?_⟩
  simp [purgeSweep, thresholds]

/-- Claim C8 at the medium `alwaysFull`, the empty store, key `k` and value `v`. -/
theorem safeStore_always_full_witness :
    (∀ ls k v, ∃ e, alwaysFull ls k v = some e ∧ e.name = "QUOTA_EXCEEDED_ERR") ∧
    ∃ w1, safeStore alwaysFull (fun _ => 400000000) "k" "v" 0 { storage := [], trace := [] }
        = Completion.normal w1 ∧
      w1.trace = [] ++
        [Event.setItem "k" "v", Event.purge 172800000,
         Event.setItem "k" "v", Event.purge 86400000,
         Event.setItem "k" "v", Event.purge 21600000,
         Event.setItem "k" "v", Event.purge 3600000,
         Event.setItem "k" "v", Event.purge 120000] :=
  have h : ∀ ls k v, ∃ e, alwaysFull ls k v = some e ∧ e.name = "QUOTA_EXCEEDED_ERR" :=
    fun _ _ _ => ⟨{ name := "QUOTA_EXCEEDED_ERR" }, rfl, rfl⟩
  ⟨h, safeStore_always_full alwaysFull h (fun _ => 400000000) "k" "v"
    { storage := [], trace := [] }⟩

/-- Claim C9, evaluated. At depth 5 `safeStore` attempts no write on any medium: it
returns with the state untouched. On a medium with room for two entries holding
`idx` and a ten-minute-old `idx-ts`, `safeStore("new", "v")` from depth 0 has five
writes rejected, the fifth sweep empties the store, and the call ends there: `new` is
not stored although the medium would now accept it. -/
theorem safeStore_depth_five_writes_nothing :
    (∀ (m : Medium) (clock : Nat → Int) (key value : String) (w : World),
      safeStore m clock key value 5 w = Completion.normal w) ∧
    safeStore capacityTwo (fun _ => 400000000) "new" "v" 0
        { storage := [("idx", "data"), ("idx-ts", "399400000")], trace := [] }
      = Completion.normal
        { storage := [],
          trace := [Event.setItem "new" "v", Event.purge 172800000,
            Event.setItem "new" "v", Event.purge 86400000,
            Event.setItem "new" "v", Event.purge 21600000,
            Event.setItem "new" "v", Event.purge 3600000,
            Event.setItem "new" "v", Event.purge 120000] } ∧
    capacityTwo [] "new" "v" = none := by
  refine ⟨fun m clock key value w => ?_, ?_, by decide⟩
  · rw [safeStore_unfold]
    simp
  · have h2d : purgeByTimestamp 400000000 172800000 [("idx", "data"), ("idx-ts", "399400000")]
        = [("idx", "data"), ("idx-ts", "399400000")] := by decide
    have h1d : purgeByTimestamp 400000000 86400000 [("idx", "data"), ("idx-ts", "399400000")]
        = [("idx", "data"), ("idx-ts", "399400000")] := by decide
    have h6h : purgeByTimestamp 400000000 21600000 [("idx", "data"), ("idx-ts", "399400000")]
        = [("idx", "data"), ("idx-ts", "399400000")] := by decide
    have h1h : purgeByTimestamp 400000000 3600000 [("idx", "data"), ("idx-ts", "399400000")]
        = [("idx", "data"), ("idx-ts", "399400000")] := by decide
    have h2m : purgeByTimestamp 400000000 120000 [("idx", "data"), ("idx-ts", "399400000")]
        = [] := by decide
    have hfull : capacityTwo [("idx", "data"), ("idx-ts", "399400000")] "new" "v"
        = some { name := "QUOTA_EXCEEDED_ERR" } := by decide
    have ht0 : thresholds[0]? = some { text := "two days", time := 172800000 } := rfl
    have ht1 : thresholds[1]? = some { text := "one day", time := 86400000 } := rfl
    have ht2 : thresholds[2]? = some { text := "six hours", time := 21600000 } := rfl
    have ht3 : thresholds[3]? = some { text := "one hour", time := 3600000 } := rfl
    have ht4 : thresholds[4]? = some { text := "two minutes", time := 120000 } := rfl
    rw [safeStore_unfold]
    simp only [setItem, hfull, ht0, purgeSweep, h2d, if_true, show (0 : Nat) < 5 by decide]
    rw [safeStore_unfold]
    simp only [setItem, hfull, ht1, purgeSweep, h1d, if_true, show (0 + 1 : Nat) < 5 by decide]
    rw [safeStore_unfold]
    simp only [setItem, hfull, ht2, purgeSweep, h6h, if_true,
      show (0 + 1 + 1 : Nat) < 5 by decide]
    rw [safeStore_unfold]
    simp only [setItem, hfull, ht3, purgeSweep, h1h, if_true,
      show (0 + 1 + 1 + 1 : Nat) < 5 by decide]
    rw [safeStore_unfold]
    simp only [setItem, hfull, ht4, purgeSweep, h2m, if_true,
      show (0 + 1 + 1 + 1 + 1 : Nat) < 5 by decide]
    rw [safeStore_unfold]
    simp

/-- Claim C10, as stated, fails: on a medium whose every write throws `SECURITY_ERR`,
neither `safeStore` nor `unsafeStore` ends by throwing that error. -/
theorem other_error_not_raised :
    (¬ ∃ w1, safeStore securityDenied (fun _ => 0) "k" "v" 0 { storage := [], trace := [] }
        = Completion.throw { name := "SECURITY_ERR" } w1) ∧
    (¬ ∃ w1, unsafeStore securityDenied "k" "v" { storage := [], trace := [] }
        = Completion.throw { name := "SECURITY_ERR" } w1) := by
  constructor
  · rintro ⟨w1, h⟩
    rw [safeStore_unfold] at h
    simp [setItem, securityDenied] at h
  · rintro ⟨w1, h⟩
    simp [unsafeStore, setItem, securityDenied] at h

/-- Claim C10, amended. When the medium's `setItem` fails on the write with an error
other than `QUOTA_EXCEEDED_ERR`, `safeStore` (at any depth) and `unsafeStore` swallow
it: the call returns normally, the entries are unchanged, no purge sweep runs, and the
only step taken is the one rejected write (none at all for `safeStore` at depth 5 or
more). -/
theorem other_error_swallowed (m : Medium) (clock : Nat → Int) (key value : String)
    (depth : Nat) (w : World) (e : JsError) (hfail : m w.storage key value = some e)
    (hname : e.name ≠ "QUOTA_EXCEEDED_ERR") :
    safeStore m clock key value depth w =
        Completion.normal (if depth < 5
          then { w with trace := w.trace ++ [Event.setItem key value] } else w) ∧
      unsafeStore m key value w =
        Completion.normal { w with trace := w.trace ++ [Event.setItem key value] } := by
  constructor
  · rw [safeStore_unfold]
    by_cases hd : depth < 5
    · simp [hd, setItem, hfail, hname]
    · simp [hd]
  · simp [unsafeStore, setItem, hfail]

/-- The amended claim C10 at the medium `securityDenied`, the empty store, key `k`,
value `v` and depth 0. -/
theorem other_error_swallowed_witness :
    securityDenied [] "k" "v" = some { name := "SECURITY_ERR" } ∧
    ({ name := "SECURITY_ERR" } : JsError).name ≠ "QUOTA_EXCEEDED_ERR" ∧
    safeStore securityDenied (fun _ => 0) "k" "v" 0 { storage := [], trace := [] } =
        Completion.normal (if 0 < 5
          then { storage := [], trace := [] ++ [Event.setItem "k" "v"] }
          else { storage := [], trace := [] }) ∧
      unsafeStore securityDenied "k" "v" { storage := [], trace := [] } =
        Completion.normal { storage := [], trace := [] ++ [Event.setItem "k" "v"] } :=
  ⟨rfl, by decide,
    other_error_swallowed securityDenied (fun _ => 0) "k" "v" 0
      { storage := [], trace := [] } { name := "SECURITY_ERR" } rfl (by decide)⟩

/-! ## Theorems: frame and monotonicity of the store -/

theorem getItem_putItem (ls : LocalStorage) (key value q : String) :
    getItem (putItem ls key value) q = if key = q then some value else getItem ls q := by
  induction ls with
  | nil => simp [putItem, getItem]
  | cons e rest ih =>
    obtain ⟨k, v⟩ := e
    by_cases hk : k = key
    · subst hk
      by_cases hq : k = q <;> simp [putItem, getItem, hq]
    · by_cases hq : k = q
      · subst hq
        simp [putItem, getItem, hk, Ne.symm hk]
      · simp [putItem, getItem, hk, hq, ih]

theorem getItem_removeItem (ls : LocalStorage) (key q : String) :
    getItem (removeItem ls key) q = if key = q then none else getItem ls q := by
  induction ls with
  | nil => simp [removeItem, getItem]
  | cons e rest ih =>
    obtain ⟨k, v⟩ := e
    by_cases hk : k = key
    · subst hk
      by_cases hq : k = q
      · subst hq
        simp [removeItem, ih]
      · simp [removeItem, getItem, hq, ih]
    · by_cases hq : k = q
      · subst hq
        simp [removeItem, getItem, hk, Ne.symm hk]
      · simp [removeItem, getItem, hk, hq, ih]

/-- Lookup after the second loop of `purgeByTimestamp`. -/
theorem getItem_foldl_removeItem (purged : List String) (ls : LocalStorage) (q : String) :
    getItem (purged.foldl removeItem ls) q = if q ∈ purged then none else getItem ls q := by
  induction purged generalizing ls with
  | nil => simp
  | cons p rest ih =>
    rw [List.foldl_cons, ih, getItem_removeItem]
    by_cases hpq : p = q
    · subst hpq
      simp
    · have hqp : ¬ q = p := fun h => hpq h.symm
      simp [hpq, hqp]

theorem mem_keys_iff_getItem (ls : LocalStorage) (q : String) :
    q ∈ keys ls ↔ getItem ls q ≠ none := by
  induction ls with
  | nil => simp [keys, getItem]
  | cons e rest ih =>
    obtain ⟨k, v⟩ := e
    by_cases hq : k = q
    · simp [keys, getItem, hq]
    · simp only [keys, List.map_cons, List.mem_cons, getItem, hq, if_false]
      simp only [keys] at ih
      rw [← ih]
      constructor
      · rintro (h | h)
        · exact absurd h.symm hq
        · exact h
      · exact Or.inr

/-- Membership in the array built by a loop of the shape of the first loop of
`purgeByTimestamp`. -/
theorem mem_foldl_push (test : String → Bool) (other : String → String)
    (live : String → Bool) (ks : List String) (acc : List String) (q : String) :
    q ∈ ks.foldl (fun acc key =>
        if test key then
          (if live (other key) then (acc ++ [key]) ++ [other key] else acc ++ [key])
        else acc) acc ↔
      q ∈ acc ∨ ∃ key ∈ ks, test key = true ∧
        (q = key ∨ (q = other key ∧ live (other key) = true)) := by
  induction ks generalizing acc with
  | nil => simp
  | cons k rest ih =>
    rw [List.foldl_cons, ih]
    constructor
    · rintro (h | ⟨key, hkey, htest, hq⟩)
      · cases ht : test k with
        | false =>
          simp only [ht, Bool.false_eq_true, if_false] at h
          exact Or.inl h
        | true =>
          cases hl : live (other k) with
          | false =>
            simp only [ht, hl, Bool.false_eq_true, if_true, if_false, List.mem_append,
              List.mem_singleton] at h
            rcases h with h | h
            · exact Or.inl h
            · exact Or.inr ⟨k, List.mem_cons_self _ _, ht, Or.inl h⟩
          | true =>
            simp only [ht, hl, if_true, List.mem_append, List.mem_singleton] at h
            rcases h with (h | h) | h
            · exact Or.inl h
            · exact Or.inr ⟨k, List.mem_cons_self _ _, ht, Or.inl h⟩
            · exact Or.inr ⟨k, List.mem_cons_self _ _, ht, Or.inr ⟨h, hl⟩⟩
      · exact Or.inr ⟨key, List.mem_cons_of_mem _ hkey, htest, hq⟩
    · rintro (h | ⟨key, hkey, htest, hq⟩)
      · left
        cases ht : test k with
        | false =>
          simp only [Bool.false_eq_true, if_false]
          exact h
        | true =>
          cases hl : live (other k) with
          | false =>
            simp only [Bool.false_eq_true, if_true, if_false, List.mem_append]
            exact Or.inl h
          | true =>
            simp only [if_true, List.mem_append]
            exact Or.inl (Or.inl h)
      · rcases List.mem_cons.mp hkey with rfl | hrest
        · left
          cases hl : live (other key) with
          | false =>
            simp only [htest, Bool.false_eq_true, if_true, if_false, List.mem_append,
              List.mem_singleton]
            rcases hq with hq | ⟨_, hq2⟩
            · exact Or.inr hq
            · rw [hl] at hq2
              exact absurd hq2 (by decide)
          | true =>
            simp only [htest, if_true, List.mem_append, List.mem_singleton]
            rcases hq with hq | ⟨hq, _⟩
            · exact Or.inl (Or.inr hq)
            · exact Or.inr hq
        · exact Or.inr ⟨key, hrest, htest, hq⟩

theorem keysToPurge_eq (currentTime threshold : Int) (ls : LocalStorage) :
    keysToPurge currentTime threshold ls =
      (keys ls).foldl (fun acc key =>
        if purgeTest currentTime threshold ls key then
          (if truthy (getItem ls (substring0 key ((key.length : Int) - ("-ts".length : Int))))
            then (acc ++ [key]) ++
              [substring0 key ((key.length : Int) - ("-ts".length : Int))]
            else acc ++ [key])
        else acc) [] := by
  rfl

theorem mem_keysToPurge (currentTime threshold : Int) (ls : LocalStorage) (q : String) :
    q ∈ keysToPurge currentTime threshold ls ↔
      ∃ key ∈ keys ls, purgeTest currentTime threshold ls key = true ∧
        (q = key ∨
          (q = substring0 key ((key.length : Int) - ("-ts".length : Int)) ∧
            truthy (getItem ls (substring0 key ((key.length : Int) - ("-ts".length : Int))))
              = true)) := by
  rw [keysToPurge_eq]
  rw [mem_foldl_push (purgeTest currentTime threshold ls)
    (fun key => substring0 key ((key.length : Int) - ("-ts".length : Int)))
    (fun k => truthy (getItem ls k))]
  simp

theorem isStale_mono (t1 t2 : Int) (h : t1 ≤ t2) (val : Option String) (currentTime : Int)
    (hs : isStale t2 val currentTime = true) : isStale t1 val currentTime = true := by
  unfold isStale at hs ⊢
  cases hp : parseInt val with
  | none => simp
  | some ts =>
    rw [hp] at hs
    by_cases hz : ts = 0
    · simp [hz]
    · simp only [hz, ne_eq, not_false_eq_true, if_true, decide_eq_true_eq] at hs ⊢
      omega

theorem purgeTest_mono (t1 t2 : Int) (h : t1 ≤ t2) (currentTime : Int) (ls : LocalStorage)
    (key : String) (hs : purgeTest currentTime t2 ls key = true) :
    purgeTest currentTime t1 ls key = true := by
  unfold purgeTest at hs ⊢
  simp only [Bool.and_eq_true] at hs ⊢
  exact ⟨hs.1, isStale_mono t1 t2 h _ _ hs.2⟩

/-- A key that `purgeByTimestamp(t2)` removes is removed by `purgeByTimestamp(t1)` for
every `t1 ≤ t2`. -/
theorem removed_mono (t1 t2 : Int) (h : t1 ≤ t2) (currentTime : Int) (ls : LocalStorage)
    (k : String) (hk : getItem ls k ≠ none)
    (hr : getItem (purgeByTimestamp currentTime t2 ls) k = none) :
    getItem (purgeByTimestamp currentTime t1 ls) k = none := by
  unfold purgeByTimestamp at hr ⊢
  rw [getItem_foldl_removeItem] at hr ⊢
  by_cases hm : k ∈ keysToPurge currentTime t2 ls
  · rw [mem_keysToPurge] at hm
    obtain ⟨key, hkey, htest, hq⟩ := hm
    have hm1 : k ∈ keysToPurge currentTime t1 ls := by
      rw [mem_keysToPurge]
      exact ⟨key, hkey, purgeTest_mono t1 t2 h currentTime ls key htest, hq⟩
    simp [hm1]
  · simp only [hm, if_false] at hr
    exact absurd hr hk

/-- A loop that pushes nothing returns its initial array. -/
theorem foldl_push_none (step : List String → String → List String) (ks : List String)
    (h : ∀ key ∈ ks, ∀ acc, step acc key = acc) (acc : List String) :
    ks.foldl step acc = acc := by
  induction ks generalizing acc with
  | nil => rfl
  | cons k rest ih =>
    rw [List.foldl_cons, h k (List.mem_cons_self _ _) acc]
    exact ih (fun k' hk' => h k' (List.mem_cons_of_mem _ hk')) acc

/-- After a purge no stored key passes the test of the first loop any more. -/
theorem keysToPurge_purge (currentTime threshold : Int) (ls : LocalStorage) :
    keysToPurge currentTime threshold (purgeByTimestamp currentTime threshold ls) = [] := by
  rw [keysToPurge_eq]
  apply foldl_push_none
  intro key hkey acc
  have hlive : getItem (purgeByTimestamp currentTime threshold ls) key ≠ none :=
    (mem_keys_iff_getItem _ _).mp hkey
  have hlook : getItem (purgeByTimestamp currentTime threshold ls) key =
      if key ∈ keysToPurge currentTime threshold ls then none else getItem ls key := by
    unfold purgeByTimestamp
    exact getItem_foldl_removeItem _ _ _
  by_cases hm : key ∈ keysToPurge currentTime threshold ls
  · rw [hlook] at hlive
    simp [hm] at hlive
  · have hsame : getItem (purgeByTimestamp currentTime threshold ls) key = getItem ls key := by
      rw [hlook]
      simp [hm]
    have hin : key ∈ keys ls := by
      rw [mem_keys_iff_getItem, ← hsame]
      exact hlive
    have htest : purgeTest currentTime threshold
        (purgeByTimestamp currentTime threshold ls) key = false := by
      by_contra hne
      have ht : purgeTest currentTime threshold ls key = true := by
        have := Bool.eq_true_of_not_eq_false hne
        unfold purgeTest at this ⊢
        rw [hsame] at this
        exact this
      exact hm ((mem_keysToPurge _ _ _ _).mpr ⟨key, hin, ht, Or.inl rfl⟩)
    simp [htest]

/-- Claim C11. `unsafeStore(key, value)` returns normally after exactly one attempted
write and no purge sweep; when the medium accepts the write the store maps `key` to
`value` and every other key reads as before; when the medium fails with
`QUOTA_EXCEEDED_ERR` the stored entries are exactly as they were. -/
theorem unsafeStore_one_write (m : Medium) (key value : String) (w : World) :
    (∃ w1, unsafeStore m key value w = Completion.normal w1 ∧
      w1.trace = w.trace ++ [Event.setItem key value]) ∧
    (m w.storage key value = none →
      unsafeStore m key value w = Completion.normal
        { storage := putItem w.storage key value,
          trace := w.trace ++ [Event.setItem key value] } ∧
      getItem (putItem w.storage key value) key = some value ∧
      ∀ k, k ≠ key → getItem (putItem w.storage key value) k = getItem w.storage k) ∧
    (∀ e, m w.storage key value = some e → e.name = "QUOTA_EXCEEDED_ERR" →
      unsafeStore m key value w = Completion.normal
        { storage := w.storage, trace := w.trace ++ [Event.setItem key value] }) := by
  refine ⟨?_, ?_, ?_⟩
  · cases hm : m w.storage key value with
    | none =>
      exact ⟨{ storage := putItem w.storage key value,
               trace := w.trace ++ [Event.setItem key value] },
        by simp [unsafeStore, setItem, hm], rfl⟩
    | some e =>
      exact ⟨{ storage := w.storage, trace := w.trace ++ [Event.setItem key value] },
        by simp [unsafeStore, setItem, hm], rfl⟩
  · intro hm
    refine ⟨by simp [unsafeStore, setItem, hm], by simp [getItem_putItem], ?_⟩
    intro k hk
    simp [getItem_putItem, Ne.symm hk]
  · intro e hm _
    simp [unsafeStore, setItem, hm]

/-- Claim C11 on the empty store, with the media `capacityTwo` (accepts) and
`alwaysFull` (capacity exceeded). -/
theorem unsafeStore_one_write_witness :
    capacityTwo [] "k" "v" = none ∧
    alwaysFull [] "k" "v" = some { name := "QUOTA_EXCEEDED_ERR" } ∧
    unsafeStore capacityTwo "k" "v" { storage := [], trace := [] } = Completion.normal
        { storage := putItem [] "k" "v", trace := [] ++ [Event.setItem "k" "v"] } ∧
    unsafeStore alwaysFull "k" "v" { storage := [], trace := [] } = Completion.normal
        { storage := [], trace := [] ++ [Event.setItem "k" "v"] } :=
  ⟨by decide, rfl,
    ((unsafeStore_one_write capacityTwo "k" "v" { storage := [], trace := [] }).2.1
      (by decide)).1,
    (unsafeStore_one_write alwaysFull "k" "v" { storage := [], trace := [] }).2.2
      { name := "QUOTA_EXCEEDED_ERR" } rfl rfl⟩

/-- Claim C16. When the medium accepts the first write, `safeStore(key, value)` at
depth 0 makes that one write and no purge sweep: afterwards the store maps `key` to
`value` and every other key reads as before. -/
theorem safeStore_first_write_accepted (m : Medium) (clock : Nat → Int)
    (key value : String) (w : World) (hm : m w.storage key value = none) :
    safeStore m clock key value 0 w = Completion.normal
        { storage := putItem w.storage key value,
          trace := w.trace ++ [Event.setItem key value] } ∧
      getItem (putItem w.storage key value) key = some value ∧
      ∀ k, k ≠ key → getItem (putItem w.storage key value) k = getItem w.storage k := by
  refine ⟨?_, by simp [getItem_putItem], ?_⟩
  · rw [safeStore_unfold]
    simp [setItem, hm]
  · intro k hk
    simp [getItem_putItem, Ne.symm hk]

/-- Claim C16 on the medium `capacityTwo` holding one entry. -/
theorem safeStore_first_write_accepted_witness :
    capacityTwo [("a", "1")] "k" "v" = none ∧
    safeStore capacityTwo (fun _ => 0) "k" "v" 0 { storage := [("a", "1")], trace := [] }
      = Completion.normal
        { storage := putItem [("a", "1")] "k" "v",
          trace := [] ++ [Event.setItem "k" "v"] } :=
  ⟨by decide,
    (safeStore_first_write_accepted capacityTwo (fun _ => 0) "k" "v"
      { storage := [("a", "1")], trace := [] } (by decide)).1⟩

/-- Claim C17. The ages of the ladder are strictly decreasing; for every store, clock
value and thresholds `t1 ≤ t2`, every key that `purgeByTimestamp(t2)` removes is
removed by `purgeByTimestamp(t1)` too; hence the sweep of each retry of `safeStore`
(ladder position `d + 1`) removes every key that the threshold of the retry before
(position `d`) would remove from the same store at the same clock value. -/
theorem purgeByTimestamp_escalates :
    List.Pairwise (fun a b => a > b) (thresholds.map Threshold.time) ∧
    (∀ (ls : LocalStorage) (currentTime t1 t2 : Int), t1 ≤ t2 →
      ∀ k, getItem ls k ≠ none →
        getItem (purgeByTimestamp currentTime t2 ls) k = none →
        getItem (purgeByTimestamp currentTime t1 ls) k = none) ∧
    (∀ (d : Nat) (a b : Threshold), thresholds[d]? = some a → thresholds[d + 1]? = some b →
      ∀ (ls : LocalStorage) (currentTime : Int) (k : String), getItem ls k ≠ none →
        getItem (purgeByTimestamp currentTime a.time ls) k = none →
        getItem (purgeByTimestamp currentTime b.time ls) k = none) := by
  have hdec : List.Pairwise (fun a b => a > b) (thresholds.map Threshold.time) := by
    decide
  refine ⟨hdec, ?_, ?_⟩
  · intro ls currentTime t1 t2 h k hk hr
    exact removed_mono t1 t2 h currentTime ls k hk hr
  · intro d a b ha hb ls currentTime k hk hr
    have hle : b.time ≤ a.time := by
      have h5 : d + 1 < 5 := by
        have hlt := (List.getElem?_eq_some_iff.mp hb).1
        simpa [thresholds] using hlt
      have hd : d = 0 ∨ d = 1 ∨ d = 2 ∨ d = 3 := by omega
      rcases hd with rfl | rfl | rfl | rfl <;>
        simp [thresholds] at ha hb <;> subst ha <;> subst hb <;> decide
    exact removed_mono b.time a.time hle currentTime ls k hk hr

/-- Claim C17 at the store `{old: x, old-ts: 1}` with the clock at 400000000 and the
thresholds two minutes and one hour: `old`, removed at one hour, is removed at two
minutes. -/
theorem purgeByTimestamp_escalates_witness :
    (120000 : Int) ≤ 3600000 ∧
    getItem [("old", "x"), ("old-ts", "1")] "old" ≠ none ∧
    getItem (purgeByTimestamp 400000000 3600000 [("old", "x"), ("old-ts", "1")]) "old"
      = none ∧
    getItem (purgeByTimestamp 400000000 120000 [("old", "x"), ("old-ts", "1")]) "old"
      = none :=
  ⟨by decide, by decide, by decide,
    purgeByTimestamp_escalates.2.1 [("old", "x"), ("old-ts", "1")] 400000000 120000 3600000
      (by decide) "old" (by decide) (by decide)⟩

/-- Claim C19. At a fixed clock value `purgeByTimestamp` never writes and is
idempotent: after the purge every key is either absent or reads the value it had
before (so a surviving key keeps its value and no key is added), and a second
`purgeByTimestamp(threshold)` with the same clock value changes nothing. -/
theorem purgeByTimestamp_idempotent (currentTime threshold : Int) (ls : LocalStorage) :
    (∀ k, getItem (purgeByTimestamp currentTime threshold ls) k = none ∨
      getItem (purgeByTimestamp currentTime threshold ls) k = getItem ls k) ∧
    purgeByTimestamp currentTime threshold (purgeByTimestamp currentTime threshold ls)
      = purgeByTimestamp currentTime threshold ls := by
  constructor
  · intro k
    unfold purgeByTimestamp
    rw [getItem_foldl_removeItem]
    by_cases hm : k ∈ keysToPurge currentTime threshold ls
    · left
      simp [hm]
    · right
      simp [hm]
  · have hnone := keysToPurge_purge currentTime threshold ls
    have hstep : purgeByTimestamp currentTime threshold
        (purgeByTimestamp currentTime threshold ls) =
        (keysToPurge currentTime threshold
          (purgeByTimestamp currentTime threshold ls)).foldl removeItem
          (purgeByTimestamp currentTime threshold ls) := rfl
    rw [hstep, hnone]
    rfl

end Storage

/-! ## Theorems: `computeProposals` -/

namespace TemplateContentAssist

mutual
/-- The function `extractPositions` keeps the nesting structure. -/
theorem shape_extractPositions : ∀ (p : Positions) (offset : Int),
    (extractPositions p offset).shape = p.shape
  | Positions.null, _ => by simp [extractPositions, Positions.shape]
  | Positions.position _ _, _ => by simp [extractPositions, Positions.shape]
  | Positions.array items, offset => by
    simp [extractPositions, Positions.shape, shapeEach_extractPositionsEach items offset]
/-- The loop of `extractPositions` keeps the nesting structure of every element. -/
theorem shapeEach_extractPositionsEach : ∀ (items : List Positions) (offset : Int),
    Positions.shapeEach (extractPositionsEach items offset) = Positions.shapeEach items
  | [], _ => by simp [extractPositionsEach, Positions.shapeEach]
  | p :: rest, offset => by
    simp [extractPositionsEach, Positions.shapeEach, shape_extractPositions p offset,
      shapeEach_extractPositionsEach rest offset]
end

mutual
/-- The function `extractPositions` shifts every offset and keeps every length. -/
theorem leaves_extractPositions : ∀ (p : Positions) (offset : Int),
    (extractPositions p offset).leaves = p.leaves.map (fun ol => (ol.1 + offset, ol.2))
  | Positions.null, _ => by simp [extractPositions, Positions.leaves]
  | Positions.position _ _, _ => by simp [extractPositions, Positions.leaves]
  | Positions.array items, offset => by
    simp [extractPositions, Positions.leaves, leavesEach_extractPositionsEach items offset]
/-- The loop of `extractPositions` shifts every offset and keeps every length. -/
theorem leavesEach_extractPositionsEach : ∀ (items : List Positions) (offset : Int),
    Positions.leavesEach (extractPositionsEach items offset) =
      (Positions.leavesEach items).map (fun ol => (ol.1 + offset, ol.2))
  | [], _ => by simp [extractPositionsEach, Positions.leavesEach]
  | p :: rest, offset => by
    simp [extractPositionsEach, Positions.leavesEach, leaves_extractPositions p offset,
      leavesEach_extractPositionsEach rest offset]
end

/-- The test `trigger.substr(0, prefix.length) === prefix` holds exactly when the
trigger starts with the prefix. -/
theorem substr0_eq_iff (trigger contextPrefix : String) :
    substr0 trigger contextPrefix.length = contextPrefix ↔
      contextPrefix.toList <+: trigger.toList := by
  obtain ⟨ts⟩ := trigger
  obtain ⟨cs⟩ := contextPrefix
  show String.mk (ts.take cs.length) = String.mk cs ↔ cs <+: ts
  rw [List.prefix_iff_eq_take]
  constructor
  · intro h
    exact (congrArg String.data h).symm
  · intro h
    exact congrArg String.mk h.symm

/-- The `forEach` loop of `computeProposals` is a filter followed by a map. -/
theorem computeProposals_loop (test : Template → Bool) (build : Template → Proposal)
    (templates : List Template) (acc : List Proposal) :
    templates.foldl (fun newTemplates template =>
        if test template then newTemplates ++ [build template] else newTemplates) acc
      = acc ++ (templates.filter test).map build := by
  induction templates generalizing acc with
  | nil => simp
  | cons t rest ih =>
    rw [List.foldl_cons, ih]
    cases ht : test t <;> simp [ht]

/-- Claim C20. `computeProposals` returns the empty list when no templates are loaded
and when the scope has none; otherwise it returns, in template order, one proposal for
exactly those templates of the scope whose trigger starts with the prefix (for the
empty prefix, all of them), each built by `newTemplate` with the offset
`invocationOffset - prefix.length`; and the positions of such a proposal have the
nesting structure and the lengths of the template's positions, with every offset
shifted by that amount. -/
theorem computeProposals_spec (scope : String) (invocationOffset : Int)
    (contextPrefix : String) :
    computeProposals none scope invocationOffset contextPrefix = [] ∧
    (∀ all, templatesOf all scope = none →
      computeProposals (some all) scope invocationOffset contextPrefix = []) ∧
    (∀ all myTemplates, templatesOf all scope = some myTemplates →
      computeProposals (some all) scope invocationOffset contextPrefix =
        (myTemplates.filter (fun t =>
            decide (contextPrefix.toList <+: t.trigger.toList))).map
          (newTemplate (invocationOffset - (contextPrefix.length : Int)))) ∧
    (∀ all myTemplates, templatesOf all scope = some myTemplates →
      computeProposals (some all) scope invocationOffset "" =
        myTemplates.map (newTemplate invocationOffset)) ∧
    (∀ (offset : Int) (t : Template),
      (newTemplate offset t).positions.shape = t.positions.shape ∧
      (newTemplate offset t).positions.leaves =
        t.positions.leaves.map (fun ol => (ol.1 + offset, ol.2))) := by
  have hloop : ∀ (pre : String) (myTemplates : List Template),
      myTemplates.foldl (fun newTemplates template =>
        if substr0 template.trigger pre.length = pre then
          newTemplates ++ [newTemplate (invocationOffset - (pre.length : Int)) template]
        else newTemplates) [] =
      (myTemplates.filter (fun t => decide (pre.toList <+: t.trigger.toList))).map
        (newTemplate (invocationOffset - (pre.length : Int))) := by
    intro pre myTemplates
    have h := computeProposals_loop
      (fun t => decide (substr0 t.trigger pre.length = pre))
      (newTemplate (invocationOffset - (pre.length : Int))) myTemplates []
    simp only [decide_eq_true_eq, List.nil_append] at h
    rw [h]
    congr 1
    apply List.filter_congr
    intro t _
    simp only [substr0_eq_iff]
  refine ⟨rfl, ?_, ?_, ?_, ?_⟩
  · intro all hnone
    simp [computeProposals, hnone]
  · intro all myTemplates hsome
    simp only [computeProposals, hsome]
    exact hloop contextPrefix myTemplates
  · intro all myTemplates hsome
    simp only [computeProposals, hsome]
    rw [hloop "" myTemplates]
    simp
  · intro offset t
    exact ⟨shape_extractPositions t.positions offset,
      leaves_extractPositions t.positions offset⟩

/-- Claim C20 for the scope `js` holding the templates `for` and `if`, the prefix `fo`
and the invocation offset 10. -/
theorem computeProposals_spec_witness :
    templatesOf
        [("js", [{ trigger := "for", proposal := "for (;;) {}", description := "for loop",
                   escapePosition := some 9,
                   positions := Positions.array [Positions.position 5 0] },
                 { trigger := "if", proposal := "if () {}", description := "if statement",
                   escapePosition := none, positions := Positions.null }])] "js"
      = some [{ trigger := "for", proposal := "for (;;) {}", description := "for loop",
                escapePosition := some 9,
                positions := Positions.array [Positions.position 5 0] },
              { trigger := "if", proposal := "if () {}", description := "if statement",
                escapePosition := none, positions := Positions.null }] ∧
    computeProposals
        (some [("js", [{ trigger := "for", proposal := "for (;;) {}",
                         description := "for loop", escapePosition := some 9,
                         positions := Positions.array [Positions.position 5 0] },
                       { trigger := "if", proposal := "if () {}",
                         description := "if statement", escapePosition := none,
                         positions := Positions.null }])]) "js" 10 "fo"
      = ([{ trigger := "for", proposal := "for (;;) {}", description := "for loop",
            escapePosition := some 9,
            positions := Positions.array [Positions.position 5 0] },
          { trigger := "if", proposal := "if () {}", description := "if statement",
            escapePosition := none, positions := Positions.null }].filter (fun t =>
            decide ("fo".toList <+: t.trigger.toList))).map
          (newTemplate (10 - (("fo".length : Nat) : Int))) :=
  ⟨rfl, (computeProposals_spec "js" 10 "fo").2.2.1 _ _ rfl⟩

end TemplateContentAssist
